import Mathlib

/-!
# Verification of the streaming fan-out pipeline

Shallow embedding of the two source files of the repository:

* `src/lib/src/fanout.py` — the Lambda `handler` that reads one record from the
  Kinesis-analytics output event, base64-decodes it, UTF-8-decodes it, JSON-parses
  it, enriches it (`customEnrichment = transaction + 500`, `inspectedAt = now`),
  conditionally writes it to DynamoDB (`attribute_not_exists(inspectedAt)`) and
  publishes it to SNS.
* `src/scripts/producer.py` — the synthetic load generator: one-shot bootstrap of
  the analytics application, a pool of ten bank ids drawn once at startup, and an
  unbounded emission loop.

Strings are modelled as lists of Unicode scalar values (`List Nat`), bytes as
lists of naturals below 256.  The library calls the handler makes
(`base64.b64decode`, `bytes.decode("utf-8")`, `json.loads`, `json.dumps`,
DynamoDB `put_item` with a condition expression, SNS `publish`) are embedded
faithfully for the input shapes this system produces.
-/

namespace Fanout

/-! ## Base64 (`base64.b64encode` / `base64.b64decode`)

The standard alphabet with `=` padding, as used by `base64.b64decode` in the
handler (and by the Kinesis transport when it encodes the record payload). -/

/-- ASCII code of character `i` of the standard base64 alphabet (`i < 64`). -/
def b64char (i : Nat) : Nat :=
  if i < 26 then 65 + i
  else if i < 52 then 97 + (i - 26)
  else if i < 62 then 48 + (i - 52)
  else if i = 62 then 43
  else 47

/-- Inverse of the base64 alphabet: maps an ASCII code back to its sextet. -/
def b64invChar (c : Nat) : Option Nat :=
  if 65 ≤ c ∧ c ≤ 90 then some (c - 65)
  else if 97 ≤ c ∧ c ≤ 122 then some (c - 97 + 26)
  else if 48 ≤ c ∧ c ≤ 57 then some (c - 48 + 52)
  else if c = 43 then some 62
  else if c = 47 then some 63
  else none

/-- `base64.b64encode`: bytes to ASCII codes, three bytes per four characters,
padded with `=` (ASCII 61). -/
def b64encode : List Nat → List Nat
  | [] => []
  | [a] => [b64char (a / 4), b64char (a % 4 * 16), 61, 61]
  | [a, b] => [b64char (a / 4), b64char (a % 4 * 16 + b / 16), b64char (b % 16 * 4), 61]
  | a :: b :: c :: rest =>
      b64char (a / 4) :: b64char (a % 4 * 16 + b / 16) ::
        b64char (b % 16 * 4 + c / 64) :: b64char (c % 64) :: b64encode rest

/-- Decoding of a base64 character stream already filtered to alphabet
characters and padding, four characters at a time. -/
def b64decodeGroups : List Nat → Option (List Nat)
  | [] => some []
  | c1 :: c2 :: c3 :: c4 :: rest =>
    match b64invChar c1, b64invChar c2 with
    | some s1, some s2 =>
      if c3 = 61 ∧ c4 = 61 ∧ rest = [] then
        some [s1 * 4 + s2 / 16]
      else if c4 = 61 ∧ rest = [] then
        match b64invChar c3 with
        | some s3 => some [s1 * 4 + s2 / 16, s2 % 16 * 16 + s3 / 4]
        | none => none
      else
        match b64invChar c3, b64invChar c4, b64decodeGroups rest with
        | some s3, some s4, some tail =>
            some ((s1 * 4 + s2 / 16) :: (s2 % 16 * 16 + s3 / 4) :: (s3 % 4 * 64 + s4) :: tail)
        | _, _, _ => none
    | _, _ => none
  | _ => none

/-- `base64.b64decode` (non-validating mode, as called by the handler):
characters outside the alphabet and padding are discarded, then the stream is
decoded in groups of four. -/
def b64decode (s : List Nat) : Option (List Nat) :=
  b64decodeGroups (s.filter fun c => (b64invChar c).isSome || c = 61)

theorem b64invChar_b64char {i : Nat} (h : i < 64) : b64invChar (b64char i) = some i := by
  revert h
  revert i
  decide

theorem b64char_isSome {i : Nat} (h : i < 64) : (b64invChar (b64char i)).isSome = true := by
  rw [b64invChar_b64char h]
  rfl

theorem b64char_ne_pad {i : Nat} (h : i < 64) : b64char i ≠ 61 := by
  revert h
  revert i
  decide

theorem b64encode_filter (l : List Nat) (h : ∀ x ∈ l, x < 256) :
    (b64encode l).filter (fun c => (b64invChar c).isSome || c = 61) = b64encode l := by
  rw [List.filter_eq_self]
  intro c hc
  have hmem : ∀ m : List Nat, (∀ x ∈ m, x < 256) → ∀ c ∈ b64encode m,
      ((b64invChar c).isSome || c = 61) = true := by
    intro m
    induction m using b64encode.induct with
    | case1 => intro _ c hc; simp [b64encode] at hc
    | case2 a =>
      intro hb c hc
      have ha : a < 256 := hb a (by simp)
      simp only [b64encode, List.mem_cons, List.not_mem_nil, or_false] at hc
      rcases hc with rfl | rfl | rfl | rfl
      · exact Bool.or_eq_true_iff.mpr (Or.inl (b64char_isSome (by omega)))
      · exact Bool.or_eq_true_iff.mpr (Or.inl (b64char_isSome (by omega)))
      · simp
      · simp
    | case3 a b =>
      intro hb c hc
      have ha : a < 256 := hb a (by simp)
      have hbb : b < 256 := hb b (by simp)
      simp only [b64encode, List.mem_cons, List.not_mem_nil, or_false] at hc
      rcases hc with rfl | rfl | rfl | rfl
      · exact Bool.or_eq_true_iff.mpr (Or.inl (b64char_isSome (by omega)))
      · exact Bool.or_eq_true_iff.mpr (Or.inl (b64char_isSome (by omega)))
      · exact Bool.or_eq_true_iff.mpr (Or.inl (b64char_isSome (by omega)))
      · simp
    | case4 a b cc rest ih =>
      intro hb c hc
      have ha : a < 256 := hb a (by simp)
      have hbb : b < 256 := hb b (by simp)
      have hcc : cc < 256 := hb cc (by simp)
      simp only [b64encode, List.mem_cons] at hc
      rcases hc with rfl | rfl | rfl | rfl | hc
      · exact Bool.or_eq_true_iff.mpr (Or.inl (b64char_isSome (by omega)))
      · exact Bool.or_eq_true_iff.mpr (Or.inl (b64char_isSome (by omega)))
      · exact Bool.or_eq_true_iff.mpr (Or.inl (b64char_isSome (by omega)))
      · exact Bool.or_eq_true_iff.mpr (Or.inl (b64char_isSome (by omega)))
      · exact ih (fun x hx => hb x (by simp [hx])) c hc
  exact hmem l h c hc

theorem b64decodeGroups_b64encode (l : List Nat) (h : ∀ x ∈ l, x < 256) :
    b64decodeGroups (b64encode l) = some l := by
  induction l using b64encode.induct with
  | case1 => rfl
  | case2 a =>
    have ha : a < 256 := h a (by simp)
    have i1 := b64invChar_b64char (show a / 4 < 64 by omega)
    have i2 := b64invChar_b64char (show a % 4 * 16 < 64 by omega)
    simp only [b64encode, b64decodeGroups, i1, i2, eq_self_iff_true, and_self, and_true,
      true_and, if_true, ite_true, Option.some.injEq, List.cons.injEq]
    all_goals omega
  | case3 a b =>
    have ha : a < 256 := h a (by simp)
    have hbb : b < 256 := h b (by simp)
    have i1 := b64invChar_b64char (show a / 4 < 64 by omega)
    have i2 := b64invChar_b64char (show a % 4 * 16 + b / 16 < 64 by omega)
    have i3 := b64invChar_b64char (show b % 16 * 4 < 64 by omega)
    have hne : (b64char (b % 16 * 4) = 61) = False := by
      simp [b64char_ne_pad (show b % 16 * 4 < 64 by omega)]
    simp only [b64encode, b64decodeGroups, i1, i2, i3, hne, eq_self_iff_true, false_and,
      and_self, and_true, true_and, if_false, ite_false, if_true, ite_true,
      Option.some.injEq, List.cons.injEq]
    all_goals omega
  | case4 a b c rest ih =>
    have ha : a < 256 := h a (by simp)
    have hbb : b < 256 := h b (by simp)
    have hcc : c < 256 := h c (by simp)
    have hrest : ∀ x ∈ rest, x < 256 := fun x hx => h x (by simp [hx])
    have i1 := b64invChar_b64char (show a / 4 < 64 by omega)
    have i2 := b64invChar_b64char (show a % 4 * 16 + b / 16 < 64 by omega)
    have i3 := b64invChar_b64char (show b % 16 * 4 + c / 64 < 64 by omega)
    have i4 := b64invChar_b64char (show c % 64 < 64 by omega)
    have hne1 : (b64char (b % 16 * 4 + c / 64) = 61) = False := by
      simp [b64char_ne_pad (show b % 16 * 4 + c / 64 < 64 by omega)]
    have hne2 : (b64char (c % 64) = 61) = False := by
      simp [b64char_ne_pad (show c % 64 < 64 by omega)]
    simp only [b64encode, b64decodeGroups, i1, i2, i3, i4, hne1, hne2, ih hrest,
      eq_self_iff_true, false_and, and_self, and_true, true_and, if_false, ite_false,
      if_true, ite_true, Option.some.injEq, List.cons.injEq]
    all_goals omega

/-- Base64 round trip: decoding inverts encoding on byte lists. -/
theorem b64decode_b64encode (l : List Nat) (h : ∀ x ∈ l, x < 256) :
    b64decode (b64encode l) = some l := by
  unfold b64decode
  rw [b64encode_filter l h]
  exact b64decodeGroups_b64encode l h

/-! ## UTF-8 (`str.encode()` / `bytes.decode("utf-8")`) -/

/-- UTF-8 encoding of one Unicode scalar value. -/
def utf8EncodeChar (c : Nat) : List Nat :=
  if c < 128 then [c]
  else if c < 2048 then [192 + c / 64, 128 + c % 64]
  else if c < 65536 then [224 + c / 4096, 128 + c / 64 % 64, 128 + c % 64]
  else [240 + c / 262144, 128 + c / 4096 % 64, 128 + c / 64 % 64, 128 + c % 64]

/-- `str.encode()`: UTF-8 encoding of a string (list of scalar values) to bytes. -/
def utf8Encode (s : List Nat) : List Nat :=
  (s.map utf8EncodeChar).flatten

/-- Decode one UTF-8 sequence from the front of a byte stream, rejecting stray
continuation bytes, truncated sequences, overlong encodings, surrogates and
values beyond U+10FFFF; returns the scalar value and the remaining bytes. -/
def utf8DecodeOne : List Nat → Option (Nat × List Nat)
  | [] => none
  | b :: rest =>
    if b < 128 then some (b, rest)
    else if b < 194 then none
    else if b < 224 then
      match rest with
      | b2 :: rest2 =>
        if 128 ≤ b2 ∧ b2 < 192 then some ((b - 192) * 64 + (b2 - 128), rest2) else none
      | _ => none
    else if b < 240 then
      match rest with
      | b2 :: b3 :: rest2 =>
        if (128 ≤ b2 ∧ b2 < 192) ∧ (128 ≤ b3 ∧ b3 < 192) ∧
            (b = 224 → 160 ≤ b2) ∧ (b = 237 → b2 < 160) then
          some ((b - 224) * 4096 + (b2 - 128) * 64 + (b3 - 128), rest2)
        else none
      | _ => none
    else if b < 245 then
      match rest with
      | b2 :: b3 :: b4 :: rest2 =>
        if (128 ≤ b2 ∧ b2 < 192) ∧ (128 ≤ b3 ∧ b3 < 192) ∧ (128 ≤ b4 ∧ b4 < 192) ∧
            (b = 240 → 144 ≤ b2) ∧ (b = 244 → b2 < 144) then
          some ((b - 240) * 262144 + (b2 - 128) * 4096 + (b3 - 128) * 64 + (b4 - 128), rest2)
        else none
      | _ => none
    else none

/-- Fuel-driven loop for UTF-8 decoding; each step consumes at least one byte,
so fuel equal to the input length never runs out. -/
def utf8DecodeAux : Nat → List Nat → Option (List Nat)
  | _, [] => some []
  | 0, _ :: _ => none
  | f + 1, b :: rest =>
    match utf8DecodeOne (b :: rest) with
    | none => none
    | some (c, r) => (utf8DecodeAux f r).map (c :: ·)

/-- `bytes.decode("utf-8")`: strict UTF-8 decoding of a byte stream to a list
of Unicode scalar values. -/
def utf8Decode (l : List Nat) : Option (List Nat) :=
  utf8DecodeAux l.length l

/-- On ASCII strings the UTF-8 encoding is the identity on code values. -/
theorem utf8Encode_ascii (s : List Nat) (h : ∀ c ∈ s, c < 128) :
    utf8Encode s = s := by
  induction s with
  | nil => rfl
  | cons c rest ih =>
    have hc : c < 128 := h c (by simp)
    have hrest : ∀ x ∈ rest, x < 128 := fun x hx => h x (by simp [hx])
    simp only [utf8Encode, List.map_cons, List.flatten_cons, utf8EncodeChar, if_pos hc]
    rw [show ((rest.map utf8EncodeChar).flatten) = utf8Encode rest from rfl, ih hrest]
    rfl

theorem utf8DecodeOne_ascii {c : Nat} (rest : List Nat) (hc : c < 128) :
    utf8DecodeOne (c :: rest) = some (c, rest) := by
  simp [utf8DecodeOne, if_pos hc]

theorem utf8DecodeAux_ascii (s : List Nat) (h : ∀ c ∈ s, c < 128) :
    ∀ f, s.length ≤ f → utf8DecodeAux f s = some s := by
  induction s with
  | nil => intro f _; cases f <;> rfl
  | cons c rest ih =>
    intro f hf
    have hc : c < 128 := h c (by simp)
    have hrest : ∀ x ∈ rest, x < 128 := fun x hx => h x (by simp [hx])
    match f with
    | 0 => simp at hf
    | f + 1 =>
      rw [utf8DecodeAux, utf8DecodeOne_ascii rest hc]
      simp only [ih hrest f (by simp at hf; omega)]
      rfl

/-- UTF-8 decoding inverts encoding on ASCII byte streams. -/
theorem utf8Decode_ascii (s : List Nat) (h : ∀ c ∈ s, c < 128) :
    utf8Decode s = some s :=
  utf8DecodeAux_ascii s h s.length le_rfl

/-! ## JSON values

The payloads this pipeline carries are flat JSON objects whose values are
strings and integers, so JSON values are modelled as scalars; an object is a
list of key/value pairs in insertion order. -/

/-- A scalar JSON value.  JSON numbers are modelled as integers: every number
this system serializes or parses is an integer (floats are outside the model
and make the embedded parser fail). -/
inductive JVal where
  | str (s : List Nat)
  | num (i : Int)
  | bool (b : Bool)
  | null
deriving DecidableEq

/-- A Unicode scalar value: in range and not a surrogate. -/
def validChar (c : Nat) : Prop :=
  c < 1114112 ∧ ¬(55296 ≤ c ∧ c < 57344)

instance (c : Nat) : Decidable (validChar c) := by
  unfold validChar
  infer_instance

/-- All characters of the string are Unicode scalar values. -/
def validStr (s : List Nat) : Prop :=
  ∀ c ∈ s, validChar c

instance (s : List Nat) : Decidable (validStr s) :=
  List.decidableBAll _ s

/-! ## JSON serialization (`json.dumps`)

`json.dumps` with its defaults: `ensure_ascii=True`, item separator `", "`,
key separator `": "`. -/

/-- Lowercase hexadecimal digit, as `json.dumps` emits in `\uXXXX` escapes. -/
def hexDigit (n : Nat) : Nat :=
  if n < 10 then 48 + n else 87 + n

/-- A `\uXXXX` escape for a code unit below 0x10000. -/
def uEscape (c : Nat) : List Nat :=
  [92, 117, hexDigit (c / 4096 % 16), hexDigit (c / 256 % 16),
    hexDigit (c / 16 % 16), hexDigit (c % 16)]

/-- Character escaping of `json.dumps` with `ensure_ascii=True`: quote and
backslash get two-character escapes, the five named control characters get
their short escapes, printable ASCII passes through, everything else becomes
`\uXXXX` (a surrogate pair for astral characters). -/
def escapeChar (c : Nat) : List Nat :=
  if c = 34 then [92, 34]
  else if c = 92 then [92, 92]
  else if c = 8 then [92, 98]
  else if c = 9 then [92, 116]
  else if c = 10 then [92, 110]
  else if c = 12 then [92, 102]
  else if c = 13 then [92, 114]
  else if 32 ≤ c ∧ c ≤ 126 then [c]
  else if c < 65536 then uEscape c
  else uEscape (55296 + (c - 65536) / 1024) ++ uEscape (56320 + (c - 65536) % 1024)

/-- Serialization of a JSON string: quote, escaped characters, quote. -/
def serializeStr (s : List Nat) : List Nat :=
  34 :: (s.map escapeChar).flatten ++ [34]

/-- Decimal digits of a natural number, most significant first. -/
def serializeNat (n : Nat) : List Nat :=
  if n = 0 then [48] else (Nat.digits 10 n).reverse.map (· + 48)

/-- Serialization of an integer: optional minus sign, then decimal digits. -/
def serializeInt (i : Int) : List Nat :=
  if i < 0 then 45 :: serializeNat i.natAbs else serializeNat i.natAbs

/-- Serialization of a scalar JSON value. -/
def serializeJVal : JVal → List Nat
  | .str s => serializeStr s
  | .num i => serializeInt i
  | .bool true => [116, 114, 117, 101]
  | .bool false => [102, 97, 108, 115, 101]
  | .null => [110, 117, 108, 108]

/-- One `"key": value` pair, with the default key separator `": "`. -/
def serializeMember (m : List Nat × JVal) : List Nat :=
  serializeStr m.1 ++ [58, 32] ++ serializeJVal m.2

/-- Members joined by the default item separator `", "`. -/
def serializeMembers : List (List Nat × JVal) → List Nat
  | [] => []
  | [m] => serializeMember m
  | m :: ms => serializeMember m ++ [44, 32] ++ serializeMembers ms

/-- `json.dumps` of an object: braces around the serialized members. -/
def jsonDumps (ms : List (List Nat × JVal)) : List Nat :=
  123 :: serializeMembers ms ++ [125]

/-! ## JSON parsing (`json.loads`)

`json.loads` restricted to the payload shape this pipeline produces: one
top-level object whose values are strings, integers, `true`, `false` or
`null`.  Nested containers and float literals are outside the model and make
the parser fail. -/

/-- JSON whitespace: space, tab, line feed, carriage return. -/
def isWs (c : Nat) : Bool :=
  c = 32 || c = 9 || c = 10 || c = 13

/-- Drop leading JSON whitespace. -/
def skipWs : List Nat → List Nat
  | [] => []
  | c :: rest => if isWs c then skipWs rest else c :: rest

/-- Value of one hexadecimal digit (either case accepted, as in `json.loads`). -/
def hexVal (c : Nat) : Option Nat :=
  if 48 ≤ c ∧ c ≤ 57 then some (c - 48)
  else if 97 ≤ c ∧ c ≤ 102 then some (c - 87)
  else if 65 ≤ c ∧ c ≤ 70 then some (c - 55)
  else none

/-- Four hexadecimal digits of a `\uXXXX` escape. -/
def hex4 (h1 h2 h3 h4 : Nat) : Option Nat :=
  match hexVal h1, hexVal h2, hexVal h3, hexVal h4 with
  | some a, some b, some c, some d => some (a * 4096 + b * 256 + c * 16 + d)
  | _, _, _, _ => none

/-- Scan one logical character of a JSON string body, as `json.loads` does:
`some (none, rest)` is the closing quote, `some (some c, rest)` one character.
Raw control characters are rejected (strict mode), escapes are decoded, and a
`\uXXXX` high surrogate followed by a low surrogate escape is combined; a lone
surrogate is kept as is. -/
def scanStrOne : List Nat → Option (Option Nat × List Nat)
  | [] => none
  | c :: rest =>
    if c = 34 then some (none, rest)
    else if c = 92 then
      match rest with
      | [] => none
      | e :: rest2 =>
        if e = 34 then some (some 34, rest2)
        else if e = 92 then some (some 92, rest2)
        else if e = 47 then some (some 47, rest2)
        else if e = 98 then some (some 8, rest2)
        else if e = 102 then some (some 12, rest2)
        else if e = 110 then some (some 10, rest2)
        else if e = 114 then some (some 13, rest2)
        else if e = 116 then some (some 9, rest2)
        else if e = 117 then
          match rest2 with
          | h1 :: h2 :: h3 :: h4 :: rest3 =>
            match hex4 h1 h2 h3 h4 with
            | none => none
            | some u =>
              if 55296 ≤ u ∧ u < 56320 then
                match rest3 with
                | e2 :: u2 :: g1 :: g2 :: g3 :: g4 :: rest4 =>
                  if e2 = 92 ∧ u2 = 117 then
                    match hex4 g1 g2 g3 g4 with
                    | none => none
                    | some v =>
                      if 56320 ≤ v ∧ v < 57344 then
                        some (some (65536 + (u - 55296) * 1024 + (v - 56320)), rest4)
                      else some (some u, rest3)
                  else some (some u, rest3)
                | _ => some (some u, rest3)
              else some (some u, rest3)
          | _ => none
        else none
    else if c < 32 then none
    else some (some c, rest)

/-- Fuel-driven loop collecting the characters of a JSON string body up to the
closing quote; every step consumes at least one input character, so fuel one
larger than the input length never runs out. -/
def parseStrAux : Nat → List Nat → Option (List Nat × List Nat)
  | 0, _ => none
  | f + 1, s =>
    match scanStrOne s with
    | none => none
    | some (none, rest) => some ([], rest)
    | some (some c, rest) => (parseStrAux f rest).map (fun p => (c :: p.1, p.2))

/-- Parse a JSON string literal, starting at its opening quote. -/
def parseString (s : List Nat) : Option (List Nat × List Nat) :=
  match s with
  | [] => none
  | c :: rest => if c = 34 then parseStrAux (rest.length + 1) rest else none

/-- Consume a run of decimal digits, folding them onto an accumulator. -/
def parseDigits (acc : Nat) : List Nat → Nat × List Nat
  | [] => (acc, [])
  | c :: rest =>
    if 48 ≤ c ∧ c ≤ 57 then parseDigits (acc * 10 + (c - 48)) rest
    else (acc, c :: rest)

/-- Parse the integral part of a JSON number: at least one digit, not followed
by `.`, `e` or `E` (a float literal is outside the model). -/
def parseIntPart (s : List Nat) : Option (Nat × List Nat) :=
  match s with
  | [] => none
  | c :: _ =>
    if 48 ≤ c ∧ c ≤ 57 then
      match parseDigits 0 s with
      | (n, rest) =>
        match rest with
        | [] => some (n, rest)
        | d :: _ => if d = 46 ∨ d = 101 ∨ d = 69 then none else some (n, rest)
    else none

/-- Parse a JSON integer: optional minus sign, then digits. -/
def parseNumber (s : List Nat) : Option (Int × List Nat) :=
  match s with
  | [] => none
  | c :: rest =>
    if c = 45 then (parseIntPart rest).map (fun p => (-(p.1 : Int), p.2))
    else (parseIntPart (c :: rest)).map (fun p => ((p.1 : Int), p.2))

/-- Consume an expected literal character sequence. -/
def dropLit : List Nat → List Nat → Option (List Nat)
  | [], s => some s
  | c :: cs, d :: s => if d = c then dropLit cs s else none
  | _ :: _, [] => none

/-- Parse one scalar JSON value: a string, an integer, `true`, `false` or
`null`.  Containers (and floats) are outside the model. -/
def parseScalar (s : List Nat) : Option (JVal × List Nat) :=
  match s with
  | [] => none
  | c :: rest =>
    if c = 34 then (parseStrAux (rest.length + 1) rest).map (fun p => (JVal.str p.1, p.2))
    else if c = 116 then (dropLit [114, 117, 101] rest).map (fun r => (JVal.bool true, r))
    else if c = 102 then (dropLit [97, 108, 115, 101] rest).map (fun r => (JVal.bool false, r))
    else if c = 110 then (dropLit [117, 108, 108] rest).map (fun r => (JVal.null, r))
    else (parseNumber (c :: rest)).map (fun p => (JVal.num p.1, p.2))

/-- Fuel-driven loop over the members of a JSON object, after the opening
brace: key string, colon, value, then a comma continues and a closing brace
ends; fuel bounds the number of members. -/
def parseMembersAux : Nat → List Nat → Option (List (List Nat × JVal) × List Nat)
  | 0, _ => none
  | f + 1, s =>
    match parseString (skipWs s) with
    | none => none
    | some (k, rest) =>
      match skipWs rest with
      | [] => none
      | c :: rest2 =>
        if c = 58 then
          match parseScalar (skipWs rest2) with
          | none => none
          | some (v, rest3) =>
            match skipWs rest3 with
            | [] => none
            | d :: rest4 =>
              if d = 44 then (parseMembersAux f rest4).map (fun p => ((k, v) :: p.1, p.2))
              else if d = 125 then some ([(k, v)], rest4)
              else none
        else none

/-- `json.loads` on the payload shape of this pipeline: one top-level object,
with nothing but whitespace allowed after it (trailing data is an error). -/
def jsonLoads (s : List Nat) : Option (List (List Nat × JVal)) :=
  match skipWs s with
  | [] => none
  | c :: rest =>
    if c = 123 then
      match skipWs rest with
      | [] => none
      | d :: rest2 =>
        if d = 125 then (if skipWs rest2 = [] then some [] else none)
        else
          match parseMembersAux (rest.length + 1) rest with
          | none => none
          | some (ms, rest3) => if skipWs rest3 = [] then some ms else none
    else none

/-! ## JSON round trips -/

theorem hexVal_hexDigit {n : Nat} (h : n < 16) : hexVal (hexDigit n) = some n := by
  revert h
  revert n
  decide

theorem hex4_hexDigits {a b c d : Nat} (ha : a < 16) (hb : b < 16) (hc : c < 16)
    (hd : d < 16) :
    hex4 (hexDigit a) (hexDigit b) (hexDigit c) (hexDigit d) =
      some (a * 4096 + b * 256 + c * 16 + d) := by
  unfold hex4
  rw [hexVal_hexDigit ha, hexVal_hexDigit hb, hexVal_hexDigit hc, hexVal_hexDigit hd]

theorem hex4_uEscape_digits {u : Nat} (h : u < 65536) :
    hex4 (hexDigit (u / 4096 % 16)) (hexDigit (u / 256 % 16)) (hexDigit (u / 16 % 16))
      (hexDigit (u % 16)) = some u := by
  rw [hex4_hexDigits (Nat.mod_lt _ (by norm_num)) (Nat.mod_lt _ (by norm_num))
    (Nat.mod_lt _ (by norm_num)) (Nat.mod_lt _ (by norm_num))]
  congr 1
  omega

theorem scanStrOne_uEscape_nonsurr (u : Nat) (tail : List Nat) (hu : u < 65536)
    (hns : ¬(55296 ≤ u ∧ u < 56320)) :
    scanStrOne (uEscape u ++ tail) = some (some u, tail) := by
  have hs : (55296 ≤ u ∧ u < 56320) = False := by
    simp only [eq_iff_iff, iff_false]
    exact hns
  simp [scanStrOne, uEscape, hex4_uEscape_digits hu, hs]

theorem scanStrOne_uEscape_pair (u v : Nat) (tail : List Nat) (hu1 : 55296 ≤ u)
    (hu2 : u < 56320) (hv1 : 56320 ≤ v) (hv2 : v < 57344) :
    scanStrOne (uEscape u ++ (uEscape v ++ tail)) =
      some (some (65536 + (u - 55296) * 1024 + (v - 56320)), tail) := by
  have hs1 : (55296 ≤ u ∧ u < 56320) = True := by
    simp only [eq_iff_iff, iff_true]
    exact ⟨hu1, hu2⟩
  have hs2 : (56320 ≤ v ∧ v < 57344) = True := by
    simp only [eq_iff_iff, iff_true]
    exact ⟨hv1, hv2⟩
  simp [scanStrOne, uEscape, hex4_uEscape_digits (show u < 65536 by omega),
    hex4_uEscape_digits (show v < 65536 by omega), hs1, hs2]

theorem scanStrOne_escapeChar (c : Nat) (rest : List Nat) (h : validChar c) :
    scanStrOne (escapeChar c ++ rest) = some (some c, rest) := by
  obtain ⟨hlt, hsurr⟩ := h
  unfold escapeChar
  split_ifs with h1 h2 h3 h4 h5 h6 h7 h8 h9
  · subst h1; simp [scanStrOne]
  · subst h2; simp [scanStrOne]
  · subst h3; simp [scanStrOne]
  · subst h4; simp [scanStrOne]
  · subst h5; simp [scanStrOne]
  · subst h6; simp [scanStrOne]
  · subst h7; simp [scanStrOne]
  · rw [List.cons_append, List.nil_append, scanStrOne.eq_def]
    simp only []
    rw [if_neg h1, if_neg h2, if_neg (by omega : ¬c < 32)]
  · exact scanStrOne_uEscape_nonsurr c rest h9 (by omega)
  · rw [List.append_assoc]
    rw [scanStrOne_uEscape_pair (55296 + (c - 65536) / 1024) (56320 + (c - 65536) % 1024) rest
        (by omega) (by omega) (by omega) (by omega)]
    rw [show 65536 + (55296 + (c - 65536) / 1024 - 55296) * 1024 +
      (56320 + (c - 65536) % 1024 - 56320) = c by omega]

theorem escapeChar_length_pos (c : Nat) : 1 ≤ (escapeChar c).length := by
  unfold escapeChar
  split_ifs <;> simp [uEscape]

theorem length_le_flatten_escape (s : List Nat) :
    s.length ≤ ((s.map escapeChar).flatten).length := by
  induction s with
  | nil => simp
  | cons c rest ih =>
    simp only [List.map_cons, List.flatten_cons, List.length_append, List.length_cons]
    have := escapeChar_length_pos c
    omega

theorem parseStrAux_ser (s : List Nat) :
    ∀ f rest, validStr s → s.length < f →
      parseStrAux f ((s.map escapeChar).flatten ++ 34 :: rest) = some (s, rest) := by
  induction s with
  | nil =>
    intro f rest _ hf
    match f with
    | f + 1 =>
      simp only [List.map_nil, List.flatten_nil, List.nil_append]
      rw [parseStrAux]
      simp [scanStrOne]
  | cons c s ih =>
    intro f rest hv hf
    have hc : validChar c := hv c (by simp)
    have hs : validStr s := fun x hx => hv x (by simp [hx])
    match f with
    | f + 1 =>
      simp only [List.map_cons, List.flatten_cons, List.append_assoc]
      rw [parseStrAux, scanStrOne_escapeChar c _ hc]
      simp only [ih f rest hs (by simp at hf; omega)]
      rfl

/-- Parsing inverts serialization for JSON strings of Unicode scalar values. -/
theorem parseString_serializeStr (s : List Nat) (rest : List Nat) (hv : validStr s) :
    parseString (serializeStr s ++ rest) = some (s, rest) := by
  unfold serializeStr parseString
  simp only [List.cons_append, List.append_assoc, List.cons_append, List.nil_append]
  rw [if_true]
  exact parseStrAux_ser s _ rest hv
    (by
      have h1 := length_le_flatten_escape s
      rw [List.length_append]
      simp only [List.length_cons]
      omega)

/-! ### Numbers -/

/-- The head of the remaining input cannot continue a JSON number: not a digit
and not `.`, `e`, `E`. -/
def numBoundary : List Nat → Prop
  | [] => True
  | c :: _ => ¬(48 ≤ c ∧ c ≤ 57) ∧ ¬(c = 46 ∨ c = 101 ∨ c = 69)

/-- Decimal digits of `n`, most significant first. -/
def natDigitsMS (n : Nat) : List Nat :=
  if n = 0 then [0] else (Nat.digits 10 n).reverse

theorem serializeNat_eq (n : Nat) : serializeNat n = (natDigitsMS n).map (· + 48) := by
  unfold serializeNat natDigitsMS
  split_ifs <;> simp

theorem natDigitsMS_lt (n : Nat) : ∀ d ∈ natDigitsMS n, d < 10 := by
  intro d hd
  unfold natDigitsMS at hd
  split_ifs at hd with h
  · simp at hd
    omega
  · rw [List.mem_reverse] at hd
    exact Nat.digits_lt_base (by norm_num) hd

theorem natDigitsMS_ne_nil (n : Nat) : natDigitsMS n ≠ [] := by
  unfold natDigitsMS
  split_ifs with h
  · simp
  · simp [Nat.digits_ne_nil_iff_ne_zero, h]

theorem ofDigits_natDigitsMS (n : Nat) : Nat.ofDigits 10 (natDigitsMS n).reverse = n := by
  unfold natDigitsMS
  split_ifs with h
  · simp [Nat.ofDigits, h]
  · rw [List.reverse_reverse, Nat.ofDigits_digits]

theorem parseDigits_append (ds : List Nat) :
    ∀ acc rest, (∀ d ∈ ds, d < 10) → numBoundary rest →
      parseDigits acc (ds.map (· + 48) ++ rest) =
        (acc * 10 ^ ds.length + Nat.ofDigits 10 ds.reverse, rest) := by
  induction ds with
  | nil =>
    intro acc rest _ hrest
    simp only [List.map_nil, List.nil_append, List.length_nil, pow_zero, Nat.mul_one,
      List.reverse_nil, Nat.ofDigits_nil, Nat.add_zero]
    match rest with
    | [] => rfl
    | c :: tail =>
      rw [parseDigits, if_neg hrest.1]
  | cons d ds ih =>
    intro acc rest hds hrest
    have hd : d < 10 := hds d (by simp)
    simp only [List.map_cons, List.cons_append]
    rw [parseDigits, if_pos (by omega : 48 ≤ d + 48 ∧ d + 48 ≤ 57)]
    rw [show d + 48 - 48 = d by omega]
    rw [ih (acc * 10 + d) rest (fun x hx => hds x (by simp [hx])) hrest]
    congr 1
    rw [List.reverse_cons, Nat.ofDigits_append, Nat.ofDigits_singleton,
      List.length_cons, List.length_reverse]
    ring

theorem parseIntPart_serializeNat (n : Nat) (rest : List Nat) (hrest : numBoundary rest) :
    parseIntPart (serializeNat n ++ rest) = some (n, rest) := by
  obtain ⟨d0, ds, hcons⟩ : ∃ d0 ds, natDigitsMS n = d0 :: ds := by
    match h : natDigitsMS n with
    | [] => exact absurd h (natDigitsMS_ne_nil n)
    | d0 :: ds => exact ⟨d0, ds, rfl⟩
  have hd0 : d0 < 10 := natDigitsMS_lt n d0 (by rw [hcons]; simp)
  have hds := parseDigits_append (natDigitsMS n) 0 rest (natDigitsMS_lt n) hrest
  rw [ofDigits_natDigitsMS, Nat.zero_mul, Nat.zero_add] at hds
  rw [serializeNat_eq, hcons]
  simp only [List.map_cons, List.cons_append]
  rw [parseIntPart]
  rw [if_pos (by omega : 48 ≤ d0 + 48 ∧ d0 + 48 ≤ 57)]
  rw [show ((d0 + 48) :: (ds.map (· + 48) ++ rest)) =
    ((d0 :: ds).map (· + 48) ++ rest) by simp]
  rw [← hcons, hds]
  match rest with
  | [] => rfl
  | c :: tail =>
    change (if c = 46 ∨ c = 101 ∨ c = 69 then none else some (n, c :: tail)) =
      some (n, c :: tail)
    rw [if_neg hrest.2]

theorem parseNumber_serializeInt (i : Int) (rest : List Nat) (hrest : numBoundary rest) :
    parseNumber (serializeInt i ++ rest) = some (i, rest) := by
  unfold serializeInt
  split_ifs with hneg
  · simp only [List.cons_append]
    rw [parseNumber, if_pos rfl, parseIntPart_serializeNat i.natAbs rest hrest]
    change some (-(i.natAbs : Int), rest) = some (i, rest)
    rw [show -(i.natAbs : Int) = i by omega]
  · obtain ⟨d0, ds, hcons⟩ : ∃ d0 ds, natDigitsMS i.natAbs = d0 :: ds := by
      match h : natDigitsMS i.natAbs with
      | [] => exact absurd h (natDigitsMS_ne_nil _)
      | d0 :: ds => exact ⟨d0, ds, rfl⟩
    have hd0 : d0 < 10 := natDigitsMS_lt _ d0 (by rw [hcons]; simp)
    have hip := parseIntPart_serializeNat i.natAbs rest hrest
    rw [serializeNat_eq, hcons] at hip ⊢
    simp only [List.map_cons, List.cons_append] at hip ⊢
    rw [parseNumber, if_neg (by omega : ¬d0 + 48 = 45), hip]
    change some ((i.natAbs : Int), rest) = some (i, rest)
    rw [show ((i.natAbs : Int)) = i by omega]

/-! ### Scalar values, object members, whole documents -/

/-- Validity of a scalar JSON value: strings consist of Unicode scalar values. -/
def validJVal : JVal → Prop
  | .str s => validStr s
  | _ => True

/-- Validity of an object member: key and value are valid. -/
def validMember (m : List Nat × JVal) : Prop :=
  validStr m.1 ∧ validJVal m.2

/-- Validity of all members of an object. -/
def validMembers (ms : List (List Nat × JVal)) : Prop :=
  ∀ m ∈ ms, validMember m

theorem serializeInt_cons (i : Int) :
    ∃ h tail, serializeInt i = h :: tail ∧ (h = 45 ∨ (48 ≤ h ∧ h ≤ 57)) := by
  unfold serializeInt
  split_ifs with hneg
  · exact ⟨45, serializeNat i.natAbs, rfl, Or.inl rfl⟩
  · obtain ⟨d0, ds, hcons⟩ : ∃ d0 ds, natDigitsMS i.natAbs = d0 :: ds := by
      match h : natDigitsMS i.natAbs with
      | [] => exact absurd h (natDigitsMS_ne_nil _)
      | d0 :: ds => exact ⟨d0, ds, rfl⟩
    have hd0 : d0 < 10 := natDigitsMS_lt _ d0 (by rw [hcons]; simp)
    refine ⟨d0 + 48, ds.map (· + 48), ?_, Or.inr ⟨by omega, by omega⟩⟩
    rw [serializeNat_eq, hcons]
    rfl

theorem skipWs_cons_not {c : Nat} (rest : List Nat) (h : isWs c = false) :
    skipWs (c :: rest) = c :: rest := by
  rw [skipWs, h]
  rfl

theorem skipWs_cons_ws {c : Nat} (rest : List Nat) (h : isWs c = true) :
    skipWs (c :: rest) = skipWs rest := by
  rw [skipWs, h]
  rfl

theorem skipWs_serializeJVal (v : JVal) (rest : List Nat) :
    skipWs (serializeJVal v ++ rest) = serializeJVal v ++ rest := by
  cases v with
  | str s => exact skipWs_cons_not _ (by rfl)
  | num i =>
    obtain ⟨h, tail, hser, hh⟩ := serializeInt_cons i
    rw [show serializeJVal (JVal.num i) = serializeInt i from rfl, hser, List.cons_append]
    refine skipWs_cons_not _ ?_
    rcases hh with rfl | ⟨h1, h2⟩
    · rfl
    · simp only [isWs, Bool.or_eq_false_iff, decide_eq_false_iff_not]
      omega
  | bool b => cases b <;> exact skipWs_cons_not _ (by rfl)
  | null => exact skipWs_cons_not _ (by rfl)

theorem option_map_some {A B : Type} (f : A -> B) (a : A) :
    (some a).map f = some (f a) := rfl

theorem serializeStr_append (k R : List Nat) :
    serializeStr k ++ R = 34 :: ((k.map escapeChar).flatten ++ 34 :: R) := by
  unfold serializeStr
  simp

theorem skipWs_serializeStr (k R : List Nat) :
    skipWs (serializeStr k ++ R) = serializeStr k ++ R := by
  conv_lhs => rw [serializeStr_append]
  rw [skipWs_cons_not _ (by rfl), ← serializeStr_append]

theorem parseScalar_serializeJVal (v : JVal) (rest : List Nat) (hv : validJVal v)
    (hrest : numBoundary rest) :
    parseScalar (serializeJVal v ++ rest) = some (v, rest) := by
  cases v with
  | str s =>
    have hlen : s.length < ((s.map escapeChar).flatten ++ 34 :: rest).length + 1 := by
      have := length_le_flatten_escape s
      rw [List.length_append]
      simp only [List.length_cons]
      omega
    have hp := parseStrAux_ser s (((s.map escapeChar).flatten ++ 34 :: rest).length + 1)
      rest hv hlen
    show parseScalar (serializeStr s ++ rest) = some (JVal.str s, rest)
    rw [serializeStr_append]
    rw [parseScalar.eq_def]
    simp only [eq_self_iff_true, if_true, ite_true]
    rw [hp]
    rfl
  | num i =>
    obtain ⟨h, tail, hser, hh⟩ := serializeInt_cons i
    have hp := parseNumber_serializeInt i rest hrest
    rw [show serializeJVal (JVal.num i) = serializeInt i from rfl, hser]
    rw [hser] at hp
    simp only [List.cons_append] at hp ⊢
    rw [parseScalar.eq_def]
    simp only []
    rw [if_neg (by omega : ¬h = 34), if_neg (by omega : ¬h = 116),
      if_neg (by omega : ¬h = 102), if_neg (by omega : ¬h = 110), hp]
    rfl
  | bool b => cases b <;> simp [parseScalar, serializeJVal, dropLit]
  | null => simp [parseScalar, serializeJVal, dropLit]

theorem parseMembersAux_ws {c : Nat} (f : Nat) (s : List Nat) (h : isWs c = true) :
    parseMembersAux f (c :: s) = parseMembersAux f s := by
  match f with
  | 0 => rfl
  | f + 1 =>
    rw [parseMembersAux, parseMembersAux, skipWs_cons_ws s h]

theorem serializeMembers_cons (m : List Nat × JVal) (m2 : List Nat × JVal)
    (ms : List (List Nat × JVal)) :
    serializeMembers (m :: m2 :: ms) =
      serializeMember m ++ [44, 32] ++ serializeMembers (m2 :: ms) := by
  rfl

theorem parseMembersAux_ser (ms : List (List Nat × JVal)) :
    ∀ f rest, validMembers ms → ms ≠ [] → ms.length < f →
      parseMembersAux f (serializeMembers ms ++ 125 :: rest) = some (ms, rest) := by
  induction ms with
  | nil => intro f rest _ hne _; exact absurd rfl hne
  | cons m ms ih =>
    intro f rest hv _ hf
    obtain ⟨hk, hval⟩ : validStr m.1 ∧ validJVal m.2 := hv m (by simp)
    match f with
    | f + 1 =>
      rw [parseMembersAux]
      cases ms with
      | nil =>
        have hstream : serializeMembers [m] ++ 125 :: rest =
            serializeStr m.1 ++ (58 :: 32 :: (serializeJVal m.2 ++ 125 :: rest)) := by
          simp [serializeMembers, serializeMember]
        have e2 : skipWs (58 :: 32 :: (serializeJVal m.2 ++ 125 :: rest))
            = 58 :: 32 :: (serializeJVal m.2 ++ 125 :: rest) := skipWs_cons_not _ (by rfl)
        have e3 : skipWs (32 :: (serializeJVal m.2 ++ 125 :: rest))
            = serializeJVal m.2 ++ 125 :: rest := by
          rw [skipWs_cons_ws _ (by rfl), skipWs_serializeJVal]
        have e4 : skipWs (125 :: rest) = 125 :: rest := skipWs_cons_not _ (by rfl)
        have hpv := parseScalar_serializeJVal m.2 (125 :: rest) hval ⟨by omega, by omega⟩
        have hne1 : ((125 : Nat) = 44) = False := eq_false (by decide)
        rw [hstream, skipWs_serializeStr, parseString_serializeStr m.1 _ hk]
        simp only [e2, e3, e4, hpv, hne1, eq_self_iff_true, if_true, ite_true,
          if_false, ite_false, Prod.mk.eta]
      | cons m2 ms2 =>
        have hstream : serializeMembers (m :: m2 :: ms2) ++ 125 :: rest =
            serializeStr m.1 ++ (58 :: 32 :: (serializeJVal m.2 ++
              44 :: 32 :: (serializeMembers (m2 :: ms2) ++ 125 :: rest))) := by
          rw [serializeMembers_cons]
          simp [serializeMember]
        have e2 : skipWs (58 :: 32 :: (serializeJVal m.2 ++
            44 :: 32 :: (serializeMembers (m2 :: ms2) ++ 125 :: rest)))
            = 58 :: 32 :: (serializeJVal m.2 ++
              44 :: 32 :: (serializeMembers (m2 :: ms2) ++ 125 :: rest)) :=
          skipWs_cons_not _ (by rfl)
        have e3 : skipWs (32 :: (serializeJVal m.2 ++
            44 :: 32 :: (serializeMembers (m2 :: ms2) ++ 125 :: rest)))
            = serializeJVal m.2 ++ 44 :: 32 :: (serializeMembers (m2 :: ms2) ++ 125 :: rest) := by
          rw [skipWs_cons_ws _ (by rfl), skipWs_serializeJVal]
        have e4 : skipWs (44 :: 32 :: (serializeMembers (m2 :: ms2) ++ 125 :: rest))
            = 44 :: 32 :: (serializeMembers (m2 :: ms2) ++ 125 :: rest) :=
          skipWs_cons_not _ (by rfl)
        have hpv := parseScalar_serializeJVal m.2
          (44 :: 32 :: (serializeMembers (m2 :: ms2) ++ 125 :: rest)) hval ⟨by omega, by omega⟩
        have hrec : parseMembersAux f (32 :: (serializeMembers (m2 :: ms2) ++ 125 :: rest))
            = some (m2 :: ms2, rest) := by
          rw [parseMembersAux_ws f _ (by rfl)]
          exact ih f rest (fun x hx => hv x (by simp [hx])) (by simp)
            (by simp only [List.length_cons] at hf ⊢; omega)
        rw [hstream, skipWs_serializeStr, parseString_serializeStr m.1 _ hk]
        simp only [e2, e3, e4, hpv, hrec, option_map_some, eq_self_iff_true, if_true,
          ite_true, Prod.mk.eta]

theorem serializeMember_length_pos (m : List Nat × JVal) :
    1 ≤ (serializeMember m).length := by
  unfold serializeMember serializeStr
  simp

theorem length_le_serializeMembers (ms : List (List Nat × JVal)) :
    ms.length ≤ (serializeMembers ms).length := by
  induction ms with
  | nil => simp [serializeMembers]
  | cons m ms ih =>
    cases ms with
    | nil =>
      have := serializeMember_length_pos m
      simp [serializeMembers]
      omega
    | cons m2 ms2 =>
      rw [serializeMembers_cons]
      simp only [List.length_append, List.length_cons]
      have := serializeMember_length_pos m
      simp only [List.length_cons] at ih ⊢
      simp
      omega

theorem serializeMembers_head (m : List Nat × JVal) (ms : List (List Nat × JVal)) :
    ∃ tail, serializeMembers (m :: ms) = 34 :: tail := by
  cases ms with
  | nil => exact ⟨_, rfl⟩
  | cons m2 ms2 =>
    rw [serializeMembers_cons]
    exact ⟨_, rfl⟩

/-- `json.loads` inverts `json.dumps` on nonempty objects with valid members. -/
theorem jsonLoads_jsonDumps (ms : List (List Nat × JVal)) (hv : validMembers ms)
    (hne : ms ≠ []) : jsonLoads (jsonDumps ms) = some ms := by
  obtain ⟨m, ms2, rfl⟩ : ∃ m ms2, ms = m :: ms2 := by
    match ms with
    | [] => exact absurd rfl hne
    | m :: ms2 => exact ⟨m, ms2, rfl⟩
  obtain ⟨tail, htail⟩ := serializeMembers_head m ms2
  have hms : parseMembersAux ((serializeMembers (m :: ms2) ++ [125]).length + 1)
      (serializeMembers (m :: ms2) ++ [125]) = some (m :: ms2, []) := by
    rw [show (serializeMembers (m :: ms2) ++ [125] : List Nat)
        = serializeMembers (m :: ms2) ++ 125 :: [] from rfl]
    refine parseMembersAux_ser (m :: ms2) _ [] hv (by simp) ?_
    have := length_le_serializeMembers (m :: ms2)
    rw [List.length_append]
    simp only [List.length_cons] at this ⊢
    omega
  have hsk : skipWs (serializeMembers (m :: ms2) ++ [125]) = 34 :: (tail ++ [125]) := by
    rw [htail, List.cons_append]
    exact skipWs_cons_not _ (by rfl)
  have hne1 : ((34 : Nat) = 125) = False := eq_false (by decide)
  have e0 : skipWs ([] : List Nat) = [] := rfl
  unfold jsonDumps jsonLoads
  rw [List.cons_append, skipWs_cons_not _ (by rfl)]
  simp only [eq_self_iff_true, if_true, ite_true]
  rw [hsk]
  simp only [hne1, if_false, ite_false]
  rw [hms]
  simp only [e0, eq_self_iff_true, if_true, ite_true]

/-! ## ASCII output of the serializer

`json.dumps` with `ensure_ascii=True` emits only ASCII characters, so the
UTF-8 stage of the pipeline is the identity on the serialized document. -/

theorem hexDigit_lt (n : Nat) (h : n < 16) : hexDigit n < 128 := by
  unfold hexDigit
  split_ifs <;> omega

theorem uEscape_ascii (u : Nat) : ∀ x ∈ uEscape u, x < 128 := by
  intro x hx
  unfold uEscape at hx
  simp only [List.mem_cons, List.not_mem_nil, or_false] at hx
  rcases hx with rfl | rfl | rfl | rfl | rfl | rfl <;>
    first
      | omega
      | exact hexDigit_lt _ (Nat.mod_lt _ (by norm_num))

theorem escapeChar_ascii (c : Nat) : ∀ x ∈ escapeChar c, x < 128 := by
  intro x hx
  unfold escapeChar at hx
  split_ifs at hx with h1 h2 h3 h4 h5 h6 h7 h8 h9
  all_goals
    first
      | (simp only [List.mem_cons, List.not_mem_nil, or_false] at hx
         omega)
      | exact uEscape_ascii _ x hx
      | (rcases List.mem_append.mp hx with hx2 | hx2 <;> exact uEscape_ascii _ x hx2)

theorem serializeStr_ascii (s : List Nat) : ∀ x ∈ serializeStr s, x < 128 := by
  intro x hx
  unfold serializeStr at hx
  rcases List.mem_cons.mp hx with rfl | hx2
  · omega
  rcases List.mem_append.mp hx2 with hx3 | hx3
  · obtain ⟨l, hl, hxl⟩ := List.mem_flatten.mp hx3
    obtain ⟨c, _, rfl⟩ := List.mem_map.mp hl
    exact escapeChar_ascii c x hxl
  · simp only [List.mem_cons, List.not_mem_nil, or_false] at hx3
    omega

theorem serializeNat_ascii (n : Nat) : ∀ x ∈ serializeNat n, x < 128 := by
  intro x hx
  rw [serializeNat_eq] at hx
  obtain ⟨d, hd, rfl⟩ := List.mem_map.mp hx
  have := natDigitsMS_lt n d hd
  omega

theorem serializeInt_ascii (i : Int) : ∀ x ∈ serializeInt i, x < 128 := by
  intro x hx
  unfold serializeInt at hx
  split_ifs at hx
  · simp only [List.mem_cons] at hx
    rcases hx with rfl | hx
    · omega
    · exact serializeNat_ascii _ x hx
  · exact serializeNat_ascii _ x hx

theorem serializeJVal_ascii (v : JVal) : ∀ x ∈ serializeJVal v, x < 128 := by
  intro x hx
  cases v with
  | str s => exact serializeStr_ascii s x hx
  | num i => exact serializeInt_ascii i x hx
  | bool b =>
    cases b <;> simp only [serializeJVal, List.mem_cons, List.not_mem_nil, or_false] at hx <;>
      omega
  | null =>
    simp only [serializeJVal, List.mem_cons, List.not_mem_nil, or_false] at hx
    omega

theorem serializeMember_ascii (m : List Nat × JVal) : ∀ x ∈ serializeMember m, x < 128 := by
  intro x hx
  unfold serializeMember at hx
  simp only [List.mem_append, List.mem_cons, List.not_mem_nil, or_false] at hx
  rcases hx with (hx | rfl | rfl) | hx
  · exact serializeStr_ascii _ x hx
  · omega
  · omega
  · exact serializeJVal_ascii _ x hx

theorem serializeMembers_ascii (ms : List (List Nat × JVal)) :
    ∀ x ∈ serializeMembers ms, x < 128 := by
  induction ms with
  | nil => intro x hx; simp [serializeMembers] at hx
  | cons m ms ih =>
    intro x hx
    cases ms with
    | nil => exact serializeMember_ascii m x hx
    | cons m2 ms2 =>
      rw [serializeMembers_cons] at hx
      simp only [List.mem_append, List.mem_cons, List.not_mem_nil, or_false] at hx
      rcases hx with (hx | rfl | rfl) | hx
      · exact serializeMember_ascii m x hx
      · omega
      · omega
      · exact ih x hx

theorem jsonDumps_ascii (ms : List (List Nat × JVal)) : ∀ x ∈ jsonDumps ms, x < 128 := by
  intro x hx
  unfold jsonDumps at hx
  simp only [List.cons_append, List.mem_cons, List.mem_append, List.not_mem_nil,
    or_false] at hx
  rcases hx with rfl | hx | rfl
  · omega
  · exact serializeMembers_ascii ms x hx
  · omega

/-! ## The data contract (DomainRecord, EnrichedRecord)

`DomainRecord` is the record contract the Fan-Out Handler consumes: the six
required fields read by `fanout.py` from the decoded JSON object. -/

structure DomainRecord where
  transactionId : List Nat
  name : List Nat
  city : List Nat
  transaction : Int
  bankId : List Nat
  createdAt : List Nat
deriving DecidableEq

/-- ASCII codes of the field-name string constants used in `fanout.py`. -/
def kTransactionId : List Nat := [116, 114, 97, 110, 115, 97, 99, 116, 105, 111, 110, 73, 100]

def kName : List Nat := [110, 97, 109, 101]

def kCity : List Nat := [99, 105, 116, 121]

def kTransaction : List Nat := [116, 114, 97, 110, 115, 97, 99, 116, 105, 111, 110]

def kBankId : List Nat := [98, 97, 110, 107, 73, 100]

def kCreatedAt : List Nat := [99, 114, 101, 97, 116, 101, 100, 65, 116]

def kCustomEnrichment : List Nat :=
  [99, 117, 115, 116, 111, 109, 69, 110, 114, 105, 99, 104, 109, 101, 110, 116]

def kInspectedAt : List Nat := [105, 110, 115, 112, 101, 99, 116, 101, 100, 65, 116]

/-- The JSON object members of a DomainRecord, in the field order of the data
contract. -/
def recordMembers (d : DomainRecord) : List (List Nat × JVal) :=
  [(kTransactionId, JVal.str d.transactionId), (kName, JVal.str d.name),
   (kCity, JVal.str d.city), (kTransaction, JVal.num d.transaction),
   (kBankId, JVal.str d.bankId), (kCreatedAt, JVal.str d.createdAt)]

/-- A valid DomainRecord: every string field consists of Unicode scalar
values. -/
def validRecord (d : DomainRecord) : Prop :=
  validStr d.transactionId ∧ validStr d.name ∧ validStr d.city ∧
    validStr d.bankId ∧ validStr d.createdAt

instance (d : DomainRecord) : Decidable (validRecord d) := by
  unfold validRecord
  infer_instance

/-- `JSON(D)`: the serialized record document. -/
def jsonRecord (d : DomainRecord) : List Nat :=
  jsonDumps (recordMembers d)

/-- The transport encoding of a record: serialize to JSON, encode as UTF-8,
encode as base64 — the payload the handler receives in
`event["records"][0]["data"]`. -/
def encodeRecordPayload (d : DomainRecord) : List Nat :=
  b64encode (utf8Encode (jsonRecord d))

/-- Lookup in a parsed JSON object with Python `dict` semantics: a later
duplicate key shadows an earlier one. -/
def lookupLast (ms : List (List Nat × JVal)) (k : List Nat) : Option JVal :=
  match ms with
  | [] => none
  | (k2, v) :: rest =>
    match lookupLast rest k with
    | some w => some w
    | none => if k = k2 then some v else none

/-- Read the six DomainRecord fields out of a decoded JSON object, as the
handler does when it builds its item. -/
def extractRecord (data : List (List Nat × JVal)) : Option DomainRecord :=
  match lookupLast data kTransactionId, lookupLast data kName, lookupLast data kCity,
      lookupLast data kTransaction, lookupLast data kBankId,
      lookupLast data kCreatedAt with
  | some (JVal.str tid), some (JVal.str nm), some (JVal.str ct), some (JVal.num tx),
      some (JVal.str bk), some (JVal.str ca) =>
    some ⟨tid, nm, ct, tx, bk, ca⟩
  | _, _, _, _, _, _ => none

/-- The handler's decode pipeline: base64-decode, UTF-8-decode, JSON-parse,
then read the record fields. -/
def decodeRecordPayload (p : List Nat) : Option DomainRecord :=
  match b64decode p with
  | none => none
  | some bytes =>
    match utf8Decode bytes with
    | none => none
    | some text =>
      match jsonLoads text with
      | none => none
      | some data => extractRecord data

theorem validMembers_recordMembers (d : DomainRecord) (hd : validRecord d) :
    validMembers (recordMembers d) := by
  obtain ⟨h1, h2, h3, h4, h5⟩ := hd
  intro m hm
  simp only [recordMembers, List.mem_cons, List.not_mem_nil, or_false] at hm
  rcases hm with rfl | rfl | rfl | rfl | rfl | rfl
  · exact ⟨(by decide : validStr kTransactionId), h1⟩
  · exact ⟨(by decide : validStr kName), h2⟩
  · exact ⟨(by decide : validStr kCity), h3⟩
  · exact ⟨(by decide : validStr kTransaction), trivial⟩
  · exact ⟨(by decide : validStr kBankId), h4⟩
  · exact ⟨(by decide : validStr kCreatedAt), h5⟩

theorem extractRecord_recordMembers (d : DomainRecord) :
    extractRecord (recordMembers d) = some d := by
  simp [extractRecord, recordMembers, lookupLast, kTransactionId, kName, kCity,
    kTransaction, kBankId, kCreatedAt]

theorem jsonRecord_ascii (d : DomainRecord) : ∀ x ∈ jsonRecord d, x < 128 :=
  jsonDumps_ascii (recordMembers d)

/-! ## The Fan-Out Handler (`fanout.py`)

`handler(event, context)` embedded as a pure function of the decoded event,
the current wall-clock string (`str(datetime.now())`) and the DynamoDB table
contents.  Its result is the returned value or the raised exception, the new
table contents, and the trace of AWS calls it made (in order). -/

/-- The Python exceptions the handler can raise, by pipeline stage. -/
inductive PyErr where
  | indexError
  | binasciiError
  | unicodeDecodeError
  | jsonDecodeError
  | keyError (k : List Nat)
  | typeError
  | conditionalCheckFailed
deriving DecidableEq

/-- The `item` dict built by the handler: the six fields copied from the
decoded payload (whatever JSON values they hold), plus the two computed
fields. -/
structure Item where
  transactionId : JVal
  name : JVal
  city : JVal
  transaction : JVal
  bankId : JVal
  createdAt : JVal
  customEnrichment : Int
  inspectedAt : List Nat
deriving DecidableEq

/-- The DynamoDB table: one row per key (the `transactionId` attribute, the
table's partition key). -/
abbrev Store := List (JVal × Item)

/-- Row lookup by partition key. -/
def storeLookup (s : Store) (k : JVal) : Option Item :=
  match s with
  | [] => none
  | (k2, it) :: rest => if k = k2 then some it else storeLookup rest k

/-- `table.put_item(Item=item, ConditionExpression="attribute_not_exists(inspectedAt)")`:
every row this system writes carries `inspectedAt`, so when a row with the same
key already exists the condition fails and the call raises
`ConditionalCheckFailedException`; otherwise the item is inserted. -/
def putItemConditional (s : Store) (it : Item) : Except PyErr Store :=
  match storeLookup s it.transactionId with
  | some _ => Except.error PyErr.conditionalCheckFailed
  | none => Except.ok ((it.transactionId, it) :: s)

/-- `data[k]` on the decoded JSON dict: `KeyError` when the key is absent. -/
def keyGet (data : List (List Nat × JVal)) (k : List Nat) : Except PyErr JVal :=
  match lookupLast data k with
  | some v => Except.ok v
  | none => Except.error (PyErr.keyError k)

/-- Building the `item` dict: the six field reads in source order (the first
missing field raises `KeyError`), then `customEnrichment = data["transaction"]
+ 500` (a `TypeError` when the value is not a number) and
`inspectedAt = str(datetime.now())`. -/
def buildItem (data : List (List Nat × JVal)) (now : List Nat) : Except PyErr Item :=
  match keyGet data kTransactionId with
  | Except.error e => Except.error e
  | Except.ok tid =>
  match keyGet data kName with
  | Except.error e => Except.error e
  | Except.ok nm =>
  match keyGet data kCity with
  | Except.error e => Except.error e
  | Except.ok ct =>
  match keyGet data kTransaction with
  | Except.error e => Except.error e
  | Except.ok tx =>
  match keyGet data kBankId with
  | Except.error e => Except.error e
  | Except.ok bk =>
  match keyGet data kCreatedAt with
  | Except.error e => Except.error e
  | Except.ok ca =>
  match tx with
  | JVal.num t => Except.ok ⟨tid, nm, ct, tx, bk, ca, t + 500, now⟩
  | _ => Except.error PyErr.typeError

/-- The `item` dict in its insertion order, as `json.dumps(item)` serializes
it. -/
def itemMembers (it : Item) : List (List Nat × JVal) :=
  [(kTransactionId, it.transactionId), (kName, it.name), (kCity, it.city),
   (kTransaction, it.transaction), (kBankId, it.bankId), (kCreatedAt, it.createdAt),
   (kCustomEnrichment, JVal.num it.customEnrichment),
   (kInspectedAt, JVal.str it.inspectedAt)]

/-- `json.dumps(item)`. -/
def dumpsItem (it : Item) : List Nat :=
  jsonDumps (itemMembers it)

/-- The value returned by a successful invocation. -/
structure HandlerResult where
  statusCode : Nat
  body : List Nat
deriving DecidableEq

/-- An external call made by the handler, in order. -/
inductive Call where
  | putItem (it : Item)
  | snsPublish (msg : List Nat)
deriving DecidableEq

def exceptDecEq {E A : Type} [DecidableEq E] [DecidableEq A] :
    DecidableEq (Except E A) := fun a b =>
  match a, b with
  | Except.error e1, Except.error e2 =>
    match decEq e1 e2 with
    | isTrue h => isTrue (by rw [h])
    | isFalse h => isFalse (by intro hc; cases hc; exact h rfl)
  | Except.ok x, Except.ok y =>
    match decEq x y with
    | isTrue h => isTrue (by rw [h])
    | isFalse h => isFalse (by intro hc; cases hc; exact h rfl)
  | Except.error _, Except.ok _ => isFalse (by intro hc; cases hc)
  | Except.ok _, Except.error _ => isFalse (by intro hc; cases hc)

instance {E A : Type} [DecidableEq E] [DecidableEq A] : DecidableEq (Except E A) :=
  exceptDecEq

/-- Everything one invocation produces: the returned value or raised
exception, the table contents afterwards, and the trace of store/topic
calls. -/
structure Outcome where
  result : Except PyErr HandlerResult
  table : Store
  calls : List Call
deriving DecidableEq

/-- `handler(event, context)` of `fanout.py`.  `event` is the list of
`records[i]["data"]` payloads of the invocation event; `now` is
`str(datetime.now())`; `table` is the DynamoDB table state.

The source reads `event["records"][0]["data"]` (an `IndexError` on an empty
list), base64-decodes it, UTF-8-decodes it, `json.loads` it, builds the
enriched item, performs the conditional `put_item`, publishes the serialized
item to SNS, and returns `{"statusCode": 200, "body": json.dumps(item)}`.
An exception anywhere aborts the invocation: nothing after the failing call
runs. -/
def handler (event : List (List Nat)) (now : List Nat) (table : Store) : Outcome :=
  match event with
  | [] => ⟨Except.error PyErr.indexError, table, []⟩
  | payload :: _ =>
    match b64decode payload with
    | none => ⟨Except.error PyErr.binasciiError, table, []⟩
    | some bytes =>
      match utf8Decode bytes with
      | none => ⟨Except.error PyErr.unicodeDecodeError, table, []⟩
      | some text =>
        match jsonLoads text with
        | none => ⟨Except.error PyErr.jsonDecodeError, table, []⟩
        | some data =>
          match buildItem data now with
          | Except.error e => ⟨Except.error e, table, []⟩
          | Except.ok item =>
            match putItemConditional table item with
            | Except.error e => ⟨Except.error e, table, [Call.putItem item]⟩
            | Except.ok table2 =>
              ⟨Except.ok ⟨200, dumpsItem item⟩, table2,
                [Call.putItem item, Call.snsPublish (dumpsItem item)]⟩

/-! ## The Generator (`producer.py`) -/

/-- Outcome of the one-shot `kinesisanalytics.start_application` bootstrap:
started normally, `ResourceInUseException` (already running — caught, printed,
and execution proceeds), or any other exception (uncaught — the script dies). -/
inductive StartOutcome where
  | started
  | alreadyRunning
  | failed
deriving DecidableEq

/-- The sources of randomness and wall-clock the producer consumes on each
loop iteration, as input streams indexed by the iteration number. -/
structure ProducerStreams where
  uuid : Nat → List Nat
  name : Nat → List Nat
  age : Nat → Int
  address : Nat → List Nat
  city : Nat → List Nat
  state : Nat → List Nat
  transactionAmount : Nat → Int
  choice : Nat → Nat
  nowStr : Nat → List Nat

/-- One record emitted by the producer loop: the nine fields of the payload
dict in `producer.py`. -/
structure ProducerRecord where
  transactionId : List Nat
  name : List Nat
  age : Int
  address : List Nat
  city : List Nat
  state : List Nat
  transaction : Int
  bankId : List Nat
  createdAt : List Nat
deriving DecidableEq

/-- `banks`: the pool of ten `fake.swift()` identifiers generated once at
startup, before the loop, and never modified afterwards. -/
def makeBanks (swift : Nat → List Nat) : List (List Nat) :=
  (List.range 10).map swift

/-- The payload of loop iteration `n`:
`banks[random.randrange(0, len(banks))]` is modelled by reducing the choice
stream modulo the pool size, matching the range of `randrange`. -/
def genRecord (swift : Nat → List Nat) (st : ProducerStreams) (n : Nat) : ProducerRecord :=
  { transactionId := st.uuid n
    name := st.name n
    age := st.age n
    address := st.address n
    city := st.city n
    state := st.state n
    transaction := st.transactionAmount n
    bankId := (makeBanks swift).getD (st.choice n % (makeBanks swift).length) []
    createdAt := st.nowStr n }

/-- The first `n` records emitted by the (unbounded) producer loop. -/
def producerEmit (swift : Nat → List Nat) (st : ProducerStreams) (n : Nat) :
    List ProducerRecord :=
  (List.range n).map (genRecord swift st)

/-- The whole generator script: the bootstrap runs before the loop; a caught
`ResourceInUseException` proceeds to emission exactly as a normal start does,
while any other bootstrap exception propagates and kills the script before a
single record is emitted (there is no retry anywhere in the script).  `n` is
the number of loop iterations observed. -/
def producerRun (start : StartOutcome) (swift : Nat → List Nat) (st : ProducerStreams)
    (n : Nat) : Except Unit (List ProducerRecord) :=
  match start with
  | StartOutcome.failed => Except.error ()
  | _ => Except.ok (producerEmit swift st n)

/-! ## Handler evaluation lemmas -/

/-- Every invocation has one of three shapes: a pre-persistence failure (no
calls, table untouched), a conditional-write collision (one `put_item` call,
table untouched, `ConditionalCheckFailedException` raised), or full success
(`put_item` then `publish`, row inserted, status 200 returned). -/
theorem handler_shape (e : List (List Nat)) (now : List Nat) (t : Store) :
    ((handler e now t).calls = [] ∧ (handler e now t).table = t ∧
      ∃ err, (handler e now t).result = Except.error err) ∨
    (∃ it r, (handler e now t).calls = [Call.putItem it] ∧
      storeLookup t it.transactionId = some r ∧ (handler e now t).table = t ∧
      (handler e now t).result = Except.error PyErr.conditionalCheckFailed) ∨
    (∃ it, (handler e now t).calls = [Call.putItem it, Call.snsPublish (dumpsItem it)] ∧
      storeLookup t it.transactionId = none ∧
      (handler e now t).table = (it.transactionId, it) :: t ∧
      (handler e now t).result = Except.ok ⟨200, dumpsItem it⟩) := by
  cases e with
  | nil => exact Or.inl ⟨rfl, rfl, PyErr.indexError, rfl⟩
  | cons p rest =>
    cases hb : b64decode p with
    | none => refine Or.inl ⟨?_, ?_, PyErr.binasciiError, ?_⟩ <;> simp [handler, hb]
    | some bytes =>
      cases hu : utf8Decode bytes with
      | none =>
        refine Or.inl ⟨?_, ?_, PyErr.unicodeDecodeError, ?_⟩ <;> simp [handler, hb, hu]
      | some text =>
        cases hj : jsonLoads text with
        | none =>
          refine Or.inl ⟨?_, ?_, PyErr.jsonDecodeError, ?_⟩ <;> simp [handler, hb, hu, hj]
        | some data =>
          cases hi : buildItem data now with
          | error err => refine Or.inl ⟨?_, ?_, err, ?_⟩ <;> simp [handler, hb, hu, hj, hi]
          | ok item =>
            cases hsl : storeLookup t item.transactionId with
            | some r =>
              refine Or.inr (Or.inl ⟨item, r, ?_, hsl, ?_, ?_⟩) <;>
                simp [handler, hb, hu, hj, hi, putItemConditional, hsl]
            | none =>
              refine Or.inr (Or.inr ⟨item, ?_, hsl, ?_, ?_⟩) <;>
                simp [handler, hb, hu, hj, hi, putItemConditional, hsl]

/-- On a payload that is the transport encoding of a JSON object, the handler
reduces to the enrichment and persistence of that object. -/
theorem handler_json (ms : List (List Nat × JVal)) (hv : validMembers ms) (hne : ms ≠ [])
    (now : List Nat) (table : Store) :
    handler [b64encode (utf8Encode (jsonDumps ms))] now table =
      match buildItem ms now with
      | Except.error e => ⟨Except.error e, table, []⟩
      | Except.ok item =>
        match putItemConditional table item with
        | Except.error e => ⟨Except.error e, table, [Call.putItem item]⟩
        | Except.ok table2 =>
          ⟨Except.ok ⟨200, dumpsItem item⟩, table2,
            [Call.putItem item, Call.snsPublish (dumpsItem item)]⟩ := by
  have e1 : utf8Encode (jsonDumps ms) = jsonDumps ms :=
    utf8Encode_ascii _ (jsonDumps_ascii _)
  have e2 : b64decode (b64encode (jsonDumps ms)) = some (jsonDumps ms) :=
    b64decode_b64encode _ (fun x hx => by have := jsonDumps_ascii ms x hx; omega)
  have e3 : utf8Decode (jsonDumps ms) = some (jsonDumps ms) :=
    utf8Decode_ascii _ (jsonDumps_ascii _)
  have e4 := jsonLoads_jsonDumps ms hv hne
  rw [handler, e1, e2]
  simp only [e3, e4]

/-- The enriched item the handler builds from a DomainRecord payload. -/
def recordItem (d : DomainRecord) (now : List Nat) : Item :=
  ⟨JVal.str d.transactionId, JVal.str d.name, JVal.str d.city, JVal.num d.transaction,
   JVal.str d.bankId, JVal.str d.createdAt, d.transaction + 500, now⟩

theorem buildItem_recordMembers (d : DomainRecord) (now : List Nat) :
    buildItem (recordMembers d) now = Except.ok (recordItem d now) := by
  simp [buildItem, keyGet, recordMembers, lookupLast, kTransactionId, kName, kCity,
    kTransaction, kBankId, kCreatedAt, recordItem]

/-- Full evaluation of the handler on an encoded valid record against a table
with no row for its transactionId. -/
theorem handler_record_fresh (d : DomainRecord) (hd : validRecord d) (now : List Nat)
    (table : Store) (hfresh : storeLookup table (JVal.str d.transactionId) = none) :
    handler [encodeRecordPayload d] now table =
      ⟨Except.ok ⟨200, dumpsItem (recordItem d now)⟩,
       (JVal.str d.transactionId, recordItem d now) :: table,
       [Call.putItem (recordItem d now),
        Call.snsPublish (dumpsItem (recordItem d now))]⟩ := by
  rw [show encodeRecordPayload d = b64encode (utf8Encode (jsonDumps (recordMembers d)))
    from rfl]
  rw [handler_json (recordMembers d) (validMembers_recordMembers d hd)
    (by simp [recordMembers]) now table]
  rw [buildItem_recordMembers]
  simp only [putItemConditional, recordItem]
  rw [hfresh]

/-- Full evaluation of the handler on an encoded valid record against a table
that already holds a row for its transactionId: the conditional write
collides, the exception propagates, and no publish happens. -/
theorem handler_record_dup (d : DomainRecord) (hd : validRecord d) (now : List Nat)
    (table : Store) (r : Item)
    (hdup : storeLookup table (JVal.str d.transactionId) = some r) :
    handler [encodeRecordPayload d] now table =
      ⟨Except.error PyErr.conditionalCheckFailed, table,
       [Call.putItem (recordItem d now)]⟩ := by
  rw [show encodeRecordPayload d = b64encode (utf8Encode (jsonDumps (recordMembers d)))
    from rfl]
  rw [handler_json (recordMembers d) (validMembers_recordMembers d hd)
    (by simp [recordMembers]) now table]
  rw [buildItem_recordMembers]
  simp only [putItemConditional, recordItem]
  rw [hdup]

/-! ## Store invariants -/

/-- Number of rows in the table carrying a given key. -/
def countKey (s : Store) (k : JVal) : Nat :=
  (s.filter (fun p => decide (p.1 = k))).length

/-- At most one row per key. -/
def WellKeyed (s : Store) : Prop :=
  ∀ k, countKey s k ≤ 1

theorem countKey_cons (k2 : JVal) (it : Item) (s : Store) (k : JVal) :
    countKey ((k2, it) :: s) k = (if k2 = k then 1 else 0) + countKey s k := by
  unfold countKey
  rw [List.filter_cons]
  split_ifs with h1 h2 h3
  · simp only [List.length_cons]
    omega
  · simp only [decide_eq_true_eq] at h1
    exact absurd h1 h2
  · simp only [decide_eq_true_eq] at h1
    exact absurd h3 h1
  · simp

theorem storeLookup_none_countKey (s : Store) (k : JVal) (h : storeLookup s k = none) :
    countKey s k = 0 := by
  induction s with
  | nil => rfl
  | cons p rest ih =>
    obtain ⟨k2, it⟩ := p
    rw [storeLookup] at h
    split_ifs at h with he
    rw [countKey_cons, if_neg (fun hc => he hc.symm), ih h]

theorem handler_preserves_lookup (e : List (List Nat)) (now : List Nat) (t : Store)
    (k : JVal) (r : Item) (h : storeLookup t k = some r) :
    storeLookup (handler e now t).table k = some r := by
  rcases handler_shape e now t with ⟨_, ht, _⟩ | ⟨it, r2, _, _, ht, _⟩ | ⟨it, _, hsl, ht, _⟩
  · rw [ht]; exact h
  · rw [ht]; exact h
  · rw [ht, storeLookup]
    split_ifs with he
    · rw [he] at h
      rw [h] at hsl
      exact absurd hsl (by simp)
    · exact h

theorem handler_preserves_wellKeyed (e : List (List Nat)) (now : List Nat) (t : Store)
    (h : WellKeyed t) : WellKeyed (handler e now t).table := by
  rcases handler_shape e now t with ⟨_, ht, _⟩ | ⟨it, r2, _, _, ht, _⟩ | ⟨it, _, hsl, ht, _⟩
  · rw [ht]; exact h
  · rw [ht]; exact h
  · rw [ht]
    intro k
    rw [countKey_cons]
    split_ifs with he
    · rw [← he, storeLookup_none_countKey t it.transactionId hsl]
    · have := h k
      omega

/-- A sequence of handler invocations, folded over the table state. -/
def runAll (invs : List (List (List Nat) × List Nat)) (t : Store) : Store :=
  match invs with
  | [] => t
  | (e, now) :: rest => runAll rest (handler e now t).table

theorem runAll_preserves_lookup (invs : List (List (List Nat) × List Nat)) :
    ∀ t k r, storeLookup t k = some r → storeLookup (runAll invs t) k = some r := by
  induction invs with
  | nil => intro t k r h; exact h
  | cons inv rest ih =>
    intro t k r h
    obtain ⟨e, now⟩ := inv
    exact ih _ k r (handler_preserves_lookup e now t k r h)

theorem runAll_preserves_wellKeyed (invs : List (List (List Nat) × List Nat)) :
    ∀ t, WellKeyed t → WellKeyed (runAll invs t) := by
  induction invs with
  | nil => intro t h; exact h
  | cons inv rest ih =>
    intro t h
    obtain ⟨e, now⟩ := inv
    exact ih _ (handler_preserves_wellKeyed e now t h)

theorem wellKeyed_nil : WellKeyed [] := by
  intro k
  simp [countKey]

/-! ## Producer lemmas -/

theorem genRecord_bankId (swift : Nat → List Nat) (st : ProducerStreams) (n : Nat) :
    (genRecord swift st n).bankId = swift (st.choice n % 10) := by
  show (makeBanks swift).getD (st.choice n % (makeBanks swift).length) [] = _
  rw [show (makeBanks swift).length = 10 by simp [makeBanks]]
  have hlt : st.choice n % 10 < 10 := Nat.mod_lt _ (by norm_num)
  set i := st.choice n % 10 with hi
  interval_cases i <;> rfl

/-! ## Claim-specific concrete data -/

/-- The scenario payload text of the spec: the JSON document
`\x7b"transactionId":"t1","name":"Alice","city":"NYC","transaction":1000,"bankId":"BANKAAXX","createdAt":"2024-01-01T00:00:00"\x7d`
as a list of character codes. -/
def c6Json : List Nat := [123, 34, 116, 114, 97, 110, 115, 97, 99, 116, 105, 111, 110, 73, 100, 34, 58, 34, 116, 49, 34, 44, 34, 110, 97, 109, 101, 34, 58, 34, 65, 108, 105, 99, 101, 34, 44, 34, 99, 105, 116, 121, 34, 58, 34, 78, 89, 67, 34, 44, 34, 116, 114, 97, 110, 115, 97, 99, 116, 105, 111, 110, 34, 58, 49, 48, 48, 48, 44, 34, 98, 97, 110, 107, 73, 100, 34, 58, 34, 66, 65, 78, 75, 65, 65, 88, 88, 34, 44, 34, 99, 114, 101, 97, 116, 101, 100, 65, 116, 34, 58, 34, 50, 48, 50, 52, 45, 48, 49, 45, 48, 49, 84, 48, 48, 58, 48, 48, 58, 48, 48, 34, 125]

/-- The DomainRecord carried by the scenario payload. -/
def c6Record : DomainRecord :=
  ⟨[116, 49], [65, 108, 105, 99, 101], [78, 89, 67], 1000, [66, 65, 78, 75, 65, 65, 88, 88], [50, 48, 50, 52, 45, 48, 49, 45, 48, 49, 84, 48, 48, 58, 48, 48, 58, 48, 48]⟩

/-- A small valid record used for concrete witnesses. -/
def wRecord : DomainRecord :=
  ⟨[116], [97], [99], 5, [98], [100]⟩

/-- Field names of the data contract, in order. -/
def fieldNames : List (List Nat) :=
  [kTransactionId, kName, kCity, kTransaction, kBankId, kCreatedAt]

/-- The i-th required field name. -/
def fieldName (i : Fin 6) : List Nat :=
  fieldNames.get ⟨i.val, by rw [show fieldNames.length = 6 from rfl]; exact i.isLt⟩

theorem buildItem_erase (d : DomainRecord) (i : Fin 6) (now : List Nat) :
    buildItem ((recordMembers d).eraseIdx i.val) now
      = Except.error (PyErr.keyError (fieldName i)) := by
  fin_cases i <;>
    simp [recordMembers, List.eraseIdx, buildItem, keyGet, lookupLast, fieldName, fieldNames,
      kTransactionId, kName, kCity, kTransaction, kBankId, kCreatedAt] <;> rfl

/-! ## The claims -/

/-- C1 counterexample: the same valid payload delivered twice, second delivery
against the table produced by the first.  The second invocation does not
return status 200: the conditional write collides and the handler raises
`ConditionalCheckFailedException`, refuting the claim that a duplicate
delivery completes as a no-op success. -/
theorem fanout_duplicate_not_200 :
    (handler [encodeRecordPayload wRecord] [50]
        ((handler [encodeRecordPayload wRecord] [49] []).table)).result
      = Except.error PyErr.conditionalCheckFailed := by
  have h1 := handler_record_fresh wRecord (by decide) [49] [] rfl
  have ht1 : (handler [encodeRecordPayload wRecord] [49] []).table
      = [(JVal.str wRecord.transactionId, recordItem wRecord [49])] := by rw [h1]
  rw [ht1]
  rw [handler_record_dup wRecord (by decide) [50]
    [(JVal.str wRecord.transactionId, recordItem wRecord [49])] (recordItem wRecord [49])
    (by rw [storeLookup, if_pos rfl])]

/-- C1 (amended): a duplicate delivery of a valid DomainRecord payload does
not overwrite the previously inspected record, but the invocation is not a
no-op success either: the handler raises `ConditionalCheckFailedException`
(the conditional-write collision is uncaught), leaves the table unchanged,
publishes nothing, and the first invocation's record — its `inspectedAt`
included — survives. -/
theorem fanout_duplicate_raises (d : DomainRecord) (hd : validRecord d)
    (now1 now2 : List Nat) :
    (handler [encodeRecordPayload d] now2
        ((handler [encodeRecordPayload d] now1 []).table)).result
      = Except.error PyErr.conditionalCheckFailed ∧
    (handler [encodeRecordPayload d] now2
        ((handler [encodeRecordPayload d] now1 []).table)).table
      = (handler [encodeRecordPayload d] now1 []).table ∧
    (∀ m, Call.snsPublish m ∉ (handler [encodeRecordPayload d] now2
        ((handler [encodeRecordPayload d] now1 []).table)).calls) ∧
    storeLookup ((handler [encodeRecordPayload d] now2
        ((handler [encodeRecordPayload d] now1 []).table)).table)
        (JVal.str d.transactionId)
      = some (recordItem d now1) := by
  have h1 := handler_record_fresh d hd now1 [] rfl
  have hsl : storeLookup [(JVal.str d.transactionId, recordItem d now1)]
      (JVal.str d.transactionId) = some (recordItem d now1) := by
    rw [storeLookup, if_pos rfl]
  have ht1 : (handler [encodeRecordPayload d] now1 []).table
      = [(JVal.str d.transactionId, recordItem d now1)] := by rw [h1]
  have h2 := handler_record_dup d hd now2
    [(JVal.str d.transactionId, recordItem d now1)] (recordItem d now1) hsl
  rw [ht1, h2]
  refine ⟨rfl, rfl, ?_, hsl⟩
  intro m hm
  simp at hm

theorem fanout_duplicate_raises_witness :
    validRecord wRecord ∧
    (handler [encodeRecordPayload wRecord] [50]
        ((handler [encodeRecordPayload wRecord] [49] []).table)).table
      = (handler [encodeRecordPayload wRecord] [49] []).table :=
  ⟨by decide, (fanout_duplicate_raises wRecord (by decide) [49] [50]).2.1⟩

/-- C2: rows are never overwritten — any record already stored for a
transactionId survives any further sequence of handler invocations unchanged
(its `inspectedAt` included) — and a store grown from empty by handler
invocations holds at most one row per transactionId; moreover the first
successful invocation for a fresh valid record does store it. -/
theorem fanout_store_idempotent (invs : List (List (List Nat) × List Nat)) (t : Store)
    (k : JVal) (r : Item) :
    (storeLookup t k = some r → storeLookup (runAll invs t) k = some r) ∧
    countKey (runAll invs []) k ≤ 1 ∧
    (∀ d now t2, validRecord d → storeLookup t2 (JVal.str d.transactionId) = none →
      storeLookup ((handler [encodeRecordPayload d] now t2).table)
        (JVal.str d.transactionId) = some (recordItem d now)) := by
  refine ⟨fun h => runAll_preserves_lookup invs t k r h,
    runAll_preserves_wellKeyed invs [] wellKeyed_nil k, ?_⟩
  intro d now t2 hd hfresh
  have hfr := handler_record_fresh d hd now t2 hfresh
  have ht : (handler [encodeRecordPayload d] now t2).table
      = (JVal.str d.transactionId, recordItem d now) :: t2 := by rw [hfr]
  rw [ht, storeLookup, if_pos rfl]

theorem fanout_store_idempotent_witness :
    storeLookup (runAll [([], [49])] [(JVal.str [116], recordItem wRecord [48])])
        (JVal.str [116]) = some (recordItem wRecord [48]) ∧
    countKey (runAll [([], [49])] []) (JVal.str [116]) ≤ 1 ∧
    storeLookup ((handler [encodeRecordPayload wRecord] [48] []).table)
        (JVal.str wRecord.transactionId) = some (recordItem wRecord [48]) := by
  obtain ⟨h1, h2, h3⟩ := fanout_store_idempotent [([], [49])]
    [(JVal.str [116], recordItem wRecord [48])] (JVal.str [116]) (recordItem wRecord [48])
  exact ⟨h1 (by rw [storeLookup, if_pos rfl]), h2,
    h3 wRecord [48] [] (by decide) rfl⟩

/-- C3: on every valid DomainRecord payload the handler stores and returns
the enriched item whose `customEnrichment` equals `transaction + 500`, and
`customEnrichment` depends on no field of the record other than
`transaction`: two records with equal `transaction` yield equal
`customEnrichment`, whatever their other fields and timestamps. -/
theorem fanout_enrichment (d : DomainRecord) (now : List Nat) (hd : validRecord d) :
    handler [encodeRecordPayload d] now [] =
      ⟨Except.ok ⟨200, dumpsItem (recordItem d now)⟩,
       [(JVal.str d.transactionId, recordItem d now)],
       [Call.putItem (recordItem d now),
        Call.snsPublish (dumpsItem (recordItem d now))]⟩ ∧
    (recordItem d now).customEnrichment = d.transaction + 500 ∧
    (∀ d2 now2, d2.transaction = d.transaction →
      (recordItem d2 now2).customEnrichment = (recordItem d now).customEnrichment) := by
  refine ⟨handler_record_fresh d hd now [] rfl, rfl, ?_⟩
  intro d2 now2 he
  simp [recordItem, he]

theorem fanout_enrichment_witness :
    validRecord wRecord ∧ (recordItem wRecord [48]).customEnrichment
      = wRecord.transaction + 500 :=
  ⟨by decide, (fanout_enrichment wRecord [48] (by decide)).2.1⟩

/-- C4: the handler's decode pipeline — base64-decode, UTF-8-decode,
JSON-parse, read the six fields — is a left inverse of
JSON-serialize-then-UTF-8-encode-then-base64-encode on every valid
DomainRecord. -/
theorem decodeRecordPayload_encodeRecordPayload (d : DomainRecord) (hd : validRecord d) :
    decodeRecordPayload (encodeRecordPayload d) = some d := by
  have e1 : utf8Encode (jsonDumps (recordMembers d)) = jsonDumps (recordMembers d) :=
    utf8Encode_ascii _ (jsonDumps_ascii _)
  have e2 : b64decode (b64encode (jsonDumps (recordMembers d)))
      = some (jsonDumps (recordMembers d)) :=
    b64decode_b64encode _ (fun x hx => by have := jsonDumps_ascii (recordMembers d) x hx; omega)
  have e3 : utf8Decode (jsonDumps (recordMembers d)) = some (jsonDumps (recordMembers d)) :=
    utf8Decode_ascii _ (jsonDumps_ascii _)
  have e4 := jsonLoads_jsonDumps (recordMembers d) (validMembers_recordMembers d hd)
    (by simp [recordMembers])
  unfold decodeRecordPayload encodeRecordPayload jsonRecord
  simp only [e1, e2, e3, e4]
  exact extractRecord_recordMembers d

theorem roundtrip_witness :
    validRecord wRecord ∧ decodeRecordPayload (encodeRecordPayload wRecord) = some wRecord :=
  ⟨by decide, decodeRecordPayload_encodeRecordPayload wRecord (by decide)⟩

/-- C5: for each of the six required fields, a payload that is an otherwise
valid record with that one field removed makes the handler fail with
`KeyError` on that field name (the validation-category error of this code),
with no store call and no topic call, the table untouched. -/
theorem fanout_validation_missing_field (d : DomainRecord) (i : Fin 6) (now : List Nat)
    (table : Store) (hd : validRecord d) :
    handler [b64encode (utf8Encode (jsonDumps ((recordMembers d).eraseIdx i.val)))] now table
      = ⟨Except.error (PyErr.keyError (fieldName i)), table, []⟩ := by
  have hvm := validMembers_recordMembers d hd
  have hvm2 : validMembers ((recordMembers d).eraseIdx i.val) := by
    intro m hm
    exact hvm m (List.eraseIdx_subset (recordMembers d) i.val hm)
  have hne : (recordMembers d).eraseIdx i.val ≠ [] := by
    fin_cases i <;> simp [recordMembers, List.eraseIdx]
  rw [handler_json _ hvm2 hne now table, buildItem_erase d i now]

theorem fanout_validation_missing_field_witness :
    validRecord wRecord ∧
    handler [b64encode (utf8Encode (jsonDumps ((recordMembers wRecord).eraseIdx 4)))]
        [48] [] = ⟨Except.error (PyErr.keyError kBankId), [], []⟩ :=
  ⟨by decide, fanout_validation_missing_field wRecord ⟨4, by omega⟩ [48] []
    (by decide)⟩

/-- C7: a publish to the topic happens only in an invocation whose conditional
persistence succeeded — whenever `sns.publish` appears in the call trace, the
trace is exactly the successful put followed by that publish, the put found no
existing row, and the invocation returned 200; in particular if the put raises
(the duplicate collision included) the topic is never called. -/
theorem fanout_publish_only_after_persist (e : List (List Nat)) (now : List Nat)
    (t : Store) (msg : List Nat)
    (hmem : Call.snsPublish msg ∈ (handler e now t).calls) :
    ∃ it, (handler e now t).calls = [Call.putItem it, Call.snsPublish (dumpsItem it)] ∧
      msg = dumpsItem it ∧ storeLookup t it.transactionId = none ∧
      (handler e now t).table = (it.transactionId, it) :: t ∧
      (handler e now t).result = Except.ok ⟨200, dumpsItem it⟩ := by
  rcases handler_shape e now t with ⟨hc, _, _⟩ | ⟨it, r, hc, _, _, _⟩ | ⟨it, hc, hsl, ht, hr⟩
  · rw [hc] at hmem
    simp at hmem
  · rw [hc] at hmem
    simp at hmem
  · refine ⟨it, hc, ?_, hsl, ht, hr⟩
    rw [hc] at hmem
    simp at hmem
    exact hmem

theorem fanout_publish_only_after_persist_witness :
    ∃ it, (handler [encodeRecordPayload wRecord] [49] []).calls
        = [Call.putItem it, Call.snsPublish (dumpsItem it)] ∧
      dumpsItem (recordItem wRecord [49]) = dumpsItem it ∧
      storeLookup [] it.transactionId = none ∧
      (handler [encodeRecordPayload wRecord] [49] []).table = (it.transactionId, it) :: [] ∧
      (handler [encodeRecordPayload wRecord] [49] []).result
        = Except.ok ⟨200, dumpsItem it⟩ :=
  fanout_publish_only_after_persist [encodeRecordPayload wRecord] [49] []
    (dumpsItem (recordItem wRecord [49]))
    (by rw [handler_record_fresh wRecord (by decide) [49] [] rfl]; simp)

/-- C8: every record the generator emits draws its bankId from the pool of
ten bank identifiers created once at startup: across any number of emitted
records the set of distinct bankId values is contained in that fixed pool,
whose size is 10. -/
theorem producer_bankpool_bounded (swift : Nat → List Nat) (st : ProducerStreams)
    (n : Nat) (r : ProducerRecord) (hr : r ∈ producerEmit swift st n) :
    r.bankId ∈ makeBanks swift ∧ (makeBanks swift).length = 10 := by
  obtain ⟨k, _, rfl⟩ := List.mem_map.mp hr
  refine ⟨?_, by simp [makeBanks]⟩
  rw [genRecord_bankId]
  exact List.mem_map.mpr ⟨st.choice k % 10,
    List.mem_range.mpr (Nat.mod_lt _ (by norm_num)), rfl⟩

/-- Constant streams used to witness the producer claims on a concrete run. -/
def wStreams : ProducerStreams :=
  ⟨fun _ => [117], fun _ => [110], fun _ => 20, fun _ => [97], fun _ => [99],
   fun _ => [115], fun _ => 1000, fun _ => 3, fun _ => [100]⟩

theorem producer_bankpool_bounded_witness :
    (genRecord (fun _ => [66]) wStreams 0).bankId ∈ makeBanks (fun _ => [66]) ∧
    (makeBanks (fun _ => [66])).length = 10 :=
  producer_bankpool_bounded (fun _ => [66]) wStreams 1 _ (by simp [producerEmit])

/-- C9: a bootstrap that reports the job already running proceeds to record
emission exactly as a normal start does (it is success, not an error), while
any other bootstrap failure aborts the generator before a single record is
emitted; the model has no bootstrap retry. -/
theorem producer_bootstrap_policy (swift : Nat → List Nat) (st : ProducerStreams)
    (n : Nat) :
    producerRun StartOutcome.alreadyRunning swift st n
      = producerRun StartOutcome.started swift st n ∧
    producerRun StartOutcome.alreadyRunning swift st n
      = Except.ok (producerEmit swift st n) ∧
    producerRun StartOutcome.failed swift st n = Except.error () :=
  ⟨rfl, rfl, rfl⟩

/-- C10: an invocation whose records list has more than one element behaves
exactly as if only the first record were present: the handler's result, table
and call trace coincide with those of the singleton event, so records after
the first produce no store write, no publish, and no trace in the
acknowledgement. -/
theorem fanout_first_record_only (p : List Nat) (rest : List (List Nat)) (now : List Nat)
    (t : Store) :
    handler (p :: rest) now t = handler [p] now t := rfl

/-- Handler evaluation on the transport encoding of any ASCII JSON text the
embedded parser accepts. -/
theorem handler_text (text : List Nat) (ms : List (List Nat × JVal))
    (htext : ∀ c ∈ text, c < 128) (hparse : jsonLoads text = some ms)
    (now : List Nat) (table : Store) :
    handler [b64encode (utf8Encode text)] now table =
      match buildItem ms now with
      | Except.error e => ⟨Except.error e, table, []⟩
      | Except.ok item =>
        match putItemConditional table item with
        | Except.error e => ⟨Except.error e, table, [Call.putItem item]⟩
        | Except.ok table2 =>
          ⟨Except.ok ⟨200, dumpsItem item⟩, table2,
            [Call.putItem item, Call.snsPublish (dumpsItem item)]⟩ := by
  have e1 : utf8Encode text = text := utf8Encode_ascii _ htext
  have e2 : b64decode (b64encode text) = some text :=
    b64decode_b64encode _ (fun x hx => by have := htext x hx; omega)
  have e3 : utf8Decode text = some text := utf8Decode_ascii _ htext
  rw [handler, e1, e2]
  simp only [e3, hparse]

set_option maxRecDepth 10000 in
/-- C6: a first-time invocation on the scenario payload — the base64 encoding
of the spec's concrete JSON document — stores the enriched record with
`customEnrichment = 1500` and `inspectedAt` equal to the (nonempty) clock
string, and returns status 200 with that record serialized as the body. -/
theorem fanout_scenario_first (now : List Nat) (h : now ≠ []) :
    handler [b64encode (utf8Encode c6Json)] now [] =
      ⟨Except.ok ⟨200, dumpsItem (recordItem c6Record now)⟩,
       [(JVal.str c6Record.transactionId, recordItem c6Record now)],
       [Call.putItem (recordItem c6Record now),
        Call.snsPublish (dumpsItem (recordItem c6Record now))]⟩ ∧
    (recordItem c6Record now).customEnrichment = 1500 ∧
    (recordItem c6Record now).inspectedAt = now ∧
    (recordItem c6Record now).inspectedAt ≠ [] := by
  refine ⟨?_, rfl, rfl, h⟩
  rw [handler_text c6Json (recordMembers c6Record) (by decide) (by decide) now []]
  rw [buildItem_recordMembers]
  have hput : putItemConditional [] (recordItem c6Record now)
      = Except.ok [(JVal.str c6Record.transactionId, recordItem c6Record now)] := rfl
  simp only [hput]

theorem fanout_scenario_first_witness :
    ([48] : List Nat) ≠ [] ∧ (recordItem c6Record [48]).customEnrichment = 1500 :=
  ⟨by decide, (fanout_scenario_first [48] (by decide)).2.1⟩

end Fanout
